import Mathlib

/-!
Verification of the Unipus task-solving automation engine.

This file gives a shallow embedding, in Lean 4, of the core logic of the
repository:

* the WebSocket audio-splice send handlers installed by
  `src/strategies/base_voice_strategy.py`
  (`_install_persistent_hijack` and `_prepare_one_shot_injection`);
* the voice retry/score ladder of
  `BaseVoiceStrategy._execute_single_voice_task`;
* the hierarchical JSON answer cache of `src/services/cache_service.py`
  (`get_task_page_cache` / `save_task_page_answers`), including an
  executable SHA-256 so that `_generate_question_hash` is modelled exactly;
* the cache-first decision logic of `SingleChoiceStrategy.execute` and the
  validate-then-click phase of `SingleChoiceStrategy._fill_and_submit`
  (`src/strategies/single_choice.py`);
* the chained-task ("题中题") loop of `run_strategy_on_current_page`
  (`main.py`).

Each definition is a direct translation of the Python / JavaScript source it
names; theorems then settle the spec's claims about those definitions.
-/

/-! ## Part 1: the WebSocket audio splice

`_install_persistent_hijack` installs a `ws.send` wrapper on the speech
WebSocket.  The wrapper's behaviour per outbound frame is:

* if `window.ai_audio_payload` is truthy (a non-empty base64 string) and the
  frame is binary: the payload slot is deleted and the decoded payload is
  sent in place of the frame;
* else if the frame is binary: nothing is sent (the frame is suppressed);
* otherwise the frame is forwarded unmodified.

We model the handler as a step function over outbound frames, with the armed
payload slot as explicit state.  The payload is the base64 string; it is set
by `_set_persistent_audio_payload` from `base64.b64encode`, so `atob` in the
substitution branch cannot fail and the `catch` branch is dead for payloads
the program arms.
-/

inductive Frame where
  | text (s : String)
  | binary (b : List Nat)
deriving DecidableEq, Repr

inductive Sent where
  | forwarded (f : Frame)
  | substituted (payload : String)
  | dropped
deriving DecidableEq, Repr

/-- One call of the spliced `ws.send` of the persistent hijack
(`base_voice_strategy.py`, `_install_persistent_hijack`).  The state is the
content of `window.ai_audio_payload` (`none` = the variable is deleted).
JavaScript truthiness makes an armed empty string behave as unarmed, and in
that branch the slot is not deleted. -/
def persistentSend (st : Option String) (f : Frame) : Option String × Sent :=
  match f with
  | .binary _ =>
    match st with
    | some p => if p.isEmpty then (some p, .dropped) else (none, .substituted p)
    | none => (none, .dropped)
  | .text s => (st, .forwarded (.text s))

/-- Run the persistent splice over a whole sequence of outbound frames,
returning the final payload-slot state and the per-frame outcomes. -/
def runSplice (st : Option String) : List Frame → Option String × List Sent
  | [] => (st, [])
  | f :: fs =>
    let so := persistentSend st f
    let rest := runSplice so.1 fs
    (rest.1, so.2 :: rest.2)

/-- One call of the spliced `ws.send` of the one-shot hijack
(`base_voice_strategy.py`, `_prepare_one_shot_injection`).  The payload `p`
is baked into the script; the state is the `window.ttsAudioSentOneShot`
flag. -/
def oneShotSend (p : String) (sent : Bool) (f : Frame) : Bool × Sent :=
  match f with
  | .binary _ => if sent then (true, .dropped) else (true, .substituted p)
  | .text s => (sent, .forwarded (.text s))

/-- Run the one-shot splice over a sequence of outbound frames. -/
def runOneShot (p : String) (sent : Bool) : List Frame → Bool × List Sent
  | [] => (sent, [])
  | f :: fs =>
    let so := oneShotSend p sent f
    let rest := runOneShot p so.1 fs
    (rest.1, so.2 :: rest.2)

def Frame.isBinary : Frame → Bool
  | .binary _ => true
  | .text _ => false

/-- The per-frame outcome once no payload is armed: binary frames are
suppressed, non-binary frames pass through unmodified. -/
def unarmedOut : Frame → Sent
  | .text s => .forwarded (.text s)
  | .binary _ => .dropped

def Sent.isSub : Sent → Bool
  | .substituted _ => true
  | _ => false

def countSub (os : List Sent) : Nat := os.countP Sent.isSub

lemma runSplice_none (fs : List Frame) :
    runSplice none fs = (none, fs.map unarmedOut) := by
  induction fs with
  | nil => rfl
  | cons f fs ih =>
    cases f <;> simp [runSplice, persistentSend, unarmedOut, ih]

lemma countP_unarmed (fs : List Frame) :
    List.countP Sent.isSub (fs.map unarmedOut) = 0 := by
  induction fs with
  | nil => rfl
  | cons f fs ih =>
    cases f <;> simpa [unarmedOut, Sent.isSub, List.countP_cons] using ih

lemma runSplice_armed_split (p : String) (hp : ¬ p.isEmpty) (b : List Nat)
    (fs gs : List Frame) (hfs : ∀ f ∈ fs, f.isBinary = false) :
    runSplice (some p) (fs ++ Frame.binary b :: gs) =
      (none, fs.map unarmedOut ++ Sent.substituted p :: gs.map unarmedOut) := by
  induction fs with
  | nil =>
    simp only [List.nil_append, runSplice, persistentSend]
    rw [if_neg hp, runSplice_none]
    simp
  | cons f fs ih =>
    have hf := hfs f (by simp)
    cases f with
    | text s =>
      have ih2 := ih (fun g hg => hfs g (by simp [hg]))
      simp only [List.cons_append, runSplice, persistentSend, List.append_eq, ih2]
      simp [unarmedOut]
    | binary c => simp [Frame.isBinary] at hf

lemma runOneShot_sent (p : String) (fs : List Frame) :
    runOneShot p true fs = (true, fs.map unarmedOut) := by
  induction fs with
  | nil => rfl
  | cons f fs ih =>
    cases f <;> simp [runOneShot, oneShotSend, unarmedOut, ih]

lemma runOneShot_split (p : String) (b : List Nat) (fs gs : List Frame)
    (hfs : ∀ f ∈ fs, f.isBinary = false) :
    runOneShot p false (fs ++ Frame.binary b :: gs) =
      (true, fs.map unarmedOut ++ Sent.substituted p :: gs.map unarmedOut) := by
  induction fs with
  | nil =>
    simp [runOneShot, oneShotSend, runOneShot_sent p gs]
  | cons f fs ih =>
    have hf := hfs f (by simp)
    cases f with
    | text s =>
      have ih2 := ih (fun g hg => hfs g (by simp [hg]))
      simp only [List.cons_append, runOneShot, oneShotSend, List.append_eq, ih2]
      simp [unarmedOut]
    | binary c => simp [Frame.isBinary] at hf

/-- C1.  Within one voice attempt the spliced send handler substitutes the
synthetic payload for exactly the first binary frame seen while the payload
is armed, suppresses every later binary frame of the attempt, always
forwards non-binary frames unmodified, and — if no payload was armed —
substitutes nothing and suppresses every binary frame.  Stated for the
persistent hijack (arbitrary frame sequence split around its first binary
frame, plus the never-armed case) and for the one-shot hijack. -/
theorem splice_single_substitution
    (p : String) (hp : ¬ p.isEmpty) (b : List Nat) (fs gs : List Frame)
    (hfs : ∀ f ∈ fs, f.isBinary = false) :
    (runSplice (some p) (fs ++ Frame.binary b :: gs)).2 =
        fs.map unarmedOut ++ Sent.substituted p :: gs.map unarmedOut ∧
    countSub (runSplice (some p) (fs ++ Frame.binary b :: gs)).2 = 1 ∧
    (∀ hs : List Frame, (runSplice none hs).2 = hs.map unarmedOut ∧
      countSub (runSplice none hs).2 = 0) ∧
    (∀ st : Option String, ∀ s : String,
      persistentSend st (Frame.text s) = (st, Sent.forwarded (Frame.text s))) ∧
    (runOneShot p false (fs ++ Frame.binary b :: gs)).2 =
        fs.map unarmedOut ++ Sent.substituted p :: gs.map unarmedOut := by
  refine ⟨?_, ?_, ?_, ?_, ?_⟩
  · rw [runSplice_armed_split p hp b fs gs hfs]
  · rw [runSplice_armed_split p hp b fs gs hfs]
    simp only [countSub, List.countP_append, List.countP_cons, countP_unarmed,
      Sent.isSub]
    simp
  · intro hs
    rw [runSplice_none]
    exact ⟨rfl, countP_unarmed hs⟩
  · intro st s; rfl
  · rw [runOneShot_split p b fs gs hfs]

/-- Witness for `splice_single_substitution` at a concrete attempt: a text
frame, then three binary frames, then a text frame. -/
theorem splice_single_substitution_witness :
    (runSplice (some "QUJD") ([Frame.text "start", Frame.binary [1, 2],
        Frame.binary [3], Frame.binary [4], Frame.text "stop"])).2 =
      [Sent.forwarded (Frame.text "start"), Sent.substituted "QUJD",
        Sent.dropped, Sent.dropped, Sent.forwarded (Frame.text "stop")] := by
  have h := splice_single_substitution "QUJD" (by decide) [1, 2]
    [Frame.text "start"] [Frame.binary [3], Frame.binary [4], Frame.text "stop"]
    (by decide)
  simpa [unarmedOut] using h.1

/-! ## Part 2: the voice retry / score ladder

`BaseVoiceStrategy._execute_single_voice_task` iterates over the TTS retry
parameter profiles.  Each iteration makes one synthesis call; the iteration
can end in one of three ways, which we record as an `Attempt`:

* `ttsFail`: `text_to_wav` returned nothing — the iteration is skipped and
  `last_score` keeps its previous value;
* `err`: an exception escaped the `try` block — `last_score` is reset to 0
  and the loop continues;
* `score n`: a score was read from the page; `last_score := n`, then
  `n ≥ 85` returns `(True, False)` at once, `n < 60` returns
  `(False, True)` at once, anything else continues.

After the loop: `(False, True)` if `last_score < 80`, else `(True, False)`.
`ladderGo` returns the `(succeeded, should_abort_page)` pair together with
the number of loop iterations executed, i.e. the number of synthesis calls
issued. -/

inductive Attempt where
  | ttsFail
  | err
  | score (n : Nat)
deriving DecidableEq, Repr

def ladderGo (last : Nat) : List Attempt → (Bool × Bool) × Nat
  | [] => (if last < 80 then (false, true) else (true, false), 0)
  | a :: rest =>
    match a with
    | .ttsFail =>
      let r := ladderGo last rest
      (r.1, r.2 + 1)
    | .err =>
      let r := ladderGo 0 rest
      (r.1, r.2 + 1)
    | .score n =>
      if n ≥ 85 then ((true, false), 1)
      else if n < 60 then ((false, true), 1)
      else
        let r := ladderGo n rest
        (r.1, r.2 + 1)

/-- The full ladder, started with `last_score = 0`. -/
def runLadder (as : List Attempt) : (Bool × Bool) × Nat := ladderGo 0 as

/-- An attempt that does not end the loop early: a skipped/failed iteration
or a score in the 60–84 band. -/
def Attempt.nondecisive : Attempt → Bool
  | .ttsFail => true
  | .err => true
  | .score n => decide (60 ≤ n) && decide (n < 85)

/-- The value of the `last_score` accumulator after a run of nondecisive
attempts starting from `last`. -/
def lastScoreAfter (last : Nat) : List Attempt → Nat
  | [] => last
  | .ttsFail :: rest => lastScoreAfter last rest
  | .err :: rest => lastScoreAfter 0 rest
  | .score n :: rest => lastScoreAfter n rest

lemma ladderGo_append_nondecisive (pre : List Attempt)
    (hpre : ∀ a ∈ pre, a.nondecisive = true) (last : Nat) (rest : List Attempt) :
    ladderGo last (pre ++ rest) =
      ((ladderGo (lastScoreAfter last pre) rest).1,
        (ladderGo (lastScoreAfter last pre) rest).2 + pre.length) := by
  induction pre generalizing last with
  | nil => simp [lastScoreAfter]
  | cons a pre ih =>
    have ha := hpre a (by simp)
    have hrest : ∀ b ∈ pre, b.nondecisive = true := fun b hb => hpre b (by simp [hb])
    cases a with
    | ttsFail =>
      have h1 : ladderGo last ((Attempt.ttsFail :: pre) ++ rest) =
          ((ladderGo last (pre ++ rest)).1, (ladderGo last (pre ++ rest)).2 + 1) := by
        simp only [List.cons_append, ladderGo, List.append_eq]
      rw [h1, ih hrest last]
      simp [lastScoreAfter, Nat.add_assoc]
    | err =>
      have h1 : ladderGo last ((Attempt.err :: pre) ++ rest) =
          ((ladderGo 0 (pre ++ rest)).1, (ladderGo 0 (pre ++ rest)).2 + 1) := by
        simp only [List.cons_append, ladderGo, List.append_eq]
      rw [h1, ih hrest 0]
      simp [lastScoreAfter, Nat.add_assoc]
    | score n =>
      simp only [Attempt.nondecisive, Bool.and_eq_true, decide_eq_true_eq] at ha
      have h1 : ladderGo last ((Attempt.score n :: pre) ++ rest) =
          ((ladderGo n (pre ++ rest)).1, (ladderGo n (pre ++ rest)).2 + 1) := by
        simp only [List.cons_append, ladderGo, List.append_eq,
          if_neg (by omega : ¬ n ≥ 85), if_neg (by omega : ¬ n < 60)]
      rw [h1, ih hrest n]
      simp [lastScoreAfter, Nat.add_assoc]

/-- C3.  If an attempt scores below 60 (all earlier attempts having been
nondecisive, so that the ladder actually reaches it), the ladder returns the
page-abort signal `(succeeded = false, should_abort_page = true)` at that
very attempt: the number of synthesis calls is the attempt's position, and
any remaining parameter profiles `post` are never tried. -/
theorem ladder_hard_fail (pre post : List Attempt) (n : Nat)
    (hpre : ∀ a ∈ pre, a.nondecisive = true) (hn : n < 60) :
    runLadder (pre ++ Attempt.score n :: post) = ((false, true), pre.length + 1) := by
  unfold runLadder
  rw [ladderGo_append_nondecisive pre hpre 0]
  simp only [ladderGo, if_neg (by omega : ¬ n ≥ 85), if_pos hn, Prod.mk.injEq]
  exact ⟨trivial, by omega⟩

/-- Witness for `ladder_hard_fail`: scores `[82, 55]` with one profile left
untried abort the page after the second synthesis call. -/
theorem ladder_hard_fail_witness :
    runLadder [Attempt.score 82, Attempt.score 55, Attempt.score 99] =
      ((false, true), 2) := by
  have h := ladder_hard_fail [Attempt.score 82] [Attempt.score 99] 55
    (by decide) (by decide)
  simpa using h

/-- C4.  The ladder stops at the first attempt scoring at least 85 (all
earlier attempts nondecisive), returns success immediately, and issues no
further synthesis call: the call count is the attempt's position,
independent of the untried profiles `post`. -/
theorem ladder_excellent_stop (pre post : List Attempt) (n : Nat)
    (hpre : ∀ a ∈ pre, a.nondecisive = true) (hn : 85 ≤ n) :
    runLadder (pre ++ Attempt.score n :: post) = ((true, false), pre.length + 1) := by
  unfold runLadder
  rw [ladderGo_append_nondecisive pre hpre 0]
  simp only [ladderGo, if_pos (by omega : n ≥ 85), Prod.mk.injEq]
  exact ⟨trivial, by omega⟩

/-- Witness for `ladder_excellent_stop`: scores `[72, 68, 91]` accept at the
third attempt with exactly three synthesis calls. -/
theorem ladder_excellent_stop_witness :
    runLadder [Attempt.score 72, Attempt.score 68, Attempt.score 91,
      Attempt.score 10] = ((true, false), 3) := by
  have h := ladder_excellent_stop [Attempt.score 72, Attempt.score 68]
    [Attempt.score 10] 91 (by decide) (by decide)
  simpa using h

/-- C5 counterexample.  The claim says that an exhausted ladder accepts when
the *best* score seen is at least 80.  Attempt scores `[82, 70]` exhaust the
ladder with best score 82 ≥ 80, yet the code returns the page-abort signal,
because `_execute_single_voice_task` tests `last_score` — the score of the
final attempt — not the best score. -/
theorem ladder_exhausted_best_counterexample :
    (List.all [Attempt.score 82, Attempt.score 70] Attempt.nondecisive = true) ∧
    (List.foldl (fun acc a => match a with
      | Attempt.score n => max acc n
      | _ => acc) 0 [Attempt.score 82, Attempt.score 70] = 82) ∧
    runLadder [Attempt.score 82, Attempt.score 70] = ((false, true), 2) := by
  refine ⟨by decide, by decide, by decide⟩

/-- C5 amended.  When the ladder exhausts all parameter profiles without a
decisive attempt, it accepts exactly when the *last recorded* score — the
final value of the `last_score` accumulator, which a failed synthesis leaves
unchanged and an exception resets to 0 — is at least 80; otherwise it
returns the page-abort signal.  Every profile is tried. -/
theorem ladder_exhausted_last_score (as : List Attempt)
    (h : ∀ a ∈ as, a.nondecisive = true) :
    runLadder as =
      (if lastScoreAfter 0 as < 80 then (false, true) else (true, false),
        as.length) := by
  unfold runLadder
  have := ladderGo_append_nondecisive as h 0 []
  simpa [ladderGo] using this

/-- Witness for `ladder_exhausted_last_score`: scores `[70, 83]` exhaust the
ladder and are accepted as acceptable (last score 83 ≥ 80). -/
theorem ladder_exhausted_last_score_witness :
    runLadder [Attempt.score 70, Attempt.score 83] = ((true, false), 2) := by
  have h := ladder_exhausted_last_score [Attempt.score 70, Attempt.score 83]
    (by decide)
  simpa [lastScoreAfter] using h

/-! ## Part 3: the answer cache

`src/services/cache_service.py` keeps the cache as a JSON document: nested
`dict`s whose keys are the breadcrumb segments, with each task-page entry
holding a `type` string and a `questions` object keyed by
`_generate_question_hash` — the first 16 hex characters of the SHA-256 of
the UTF-8 encoded question text.  We first implement SHA-256 executably so
that the hash is modelled exactly, then the JSON values and the two cache
operations. -/

def w32 (x : Nat) : Nat := x % 4294967296

def rotr (n x : Nat) : Nat := w32 ((x >>> n) ||| (x <<< (32 - n)))

/-- The 64 SHA-256 round constants. -/
def shaK : List Nat := [1116352408, 1899447441, 3049323471, 3921009573, 961987163, 1508970993, 2453635748, 2870763221, 3624381080, 310598401, 607225278, 1426881987, 1925078388, 2162078206, 2614888103, 3248222580, 3835390401, 4022224774, 264347078, 604807628, 770255983, 1249150122, 1555081692, 1996064986, 2554220882, 2821834349, 2952996808, 3210313671, 3336571891, 3584528711, 113926993, 338241895, 666307205, 773529912, 1294757372, 1396182291, 1695183700, 1986661051, 2177026350, 2456956037, 2730485921, 2820302411, 3259730800, 3345764771, 3516065817, 3600352804, 4094571909, 275423344, 430227734, 506948616, 659060556, 883997877, 958139571, 1322822218, 1537002063, 1747873779, 1955562222, 2024104815, 2227730452, 2361852424, 2428436474, 2756734187, 3204031479, 3329325298]

/-- The SHA-256 initial hash state. -/
def shaH0 : List Nat := [1779033703, 3144134277, 1013904242, 2773480762, 1359893119, 2600822924, 528734635, 1541459225]

def be8 (n : Nat) : List Nat :=
  [(n >>> 56) % 256, (n >>> 48) % 256, (n >>> 40) % 256, (n >>> 32) % 256,
   (n >>> 24) % 256, (n >>> 16) % 256, (n >>> 8) % 256, n % 256]

/-- SHA-256 padding: append `0x80`, zeros, and the 64-bit big-endian bit
length, to a multiple of 64 bytes. -/
def padMsg (m : List Nat) : List Nat :=
  let l := m.length
  let zeros := (64 - ((l + 9) % 64)) % 64
  m ++ 128 :: List.replicate zeros 0 ++ be8 (l * 8)

def blocksGo : Nat → List Nat → List (List Nat)
  | 0, _ => []
  | _, [] => []
  | n + 1, a :: l => ((a :: l).take 64) :: blocksGo n ((a :: l).drop 64)

/-- Split a byte list into 64-byte blocks (fuelled so the kernel can reduce
it). -/
def blocks (l : List Nat) : List (List Nat) := blocksGo l.length l

def words16 : List Nat → List Nat
  | b0 :: b1 :: b2 :: b3 :: rest => (((b0 * 256 + b1) * 256 + b2) * 256 + b3) :: words16 rest
  | _ => []

def shaS0 (x : Nat) : Nat := rotr 7 x ^^^ rotr 18 x ^^^ (x >>> 3)
def shaS1 (x : Nat) : Nat := rotr 17 x ^^^ rotr 19 x ^^^ (x >>> 10)

/-- Extend the 16 message words to the 64-entry message schedule. -/
def sched : List Nat → Nat → List Nat
  | ws, 0 => ws
  | ws, n + 1 =>
    let i := ws.length
    let w := w32 (shaS1 (ws.getD (i - 2) 0) + ws.getD (i - 7) 0 +
      shaS0 (ws.getD (i - 15) 0) + ws.getD (i - 16) 0)
    sched (ws ++ [w]) n

def shaCh (x y z : Nat) : Nat := (x &&& y) ^^^ ((x ^^^ 4294967295) &&& z)
def shaMaj (x y z : Nat) : Nat := (x &&& y) ^^^ (x &&& z) ^^^ (y &&& z)
def shaB0 (x : Nat) : Nat := rotr 2 x ^^^ rotr 13 x ^^^ rotr 22 x
def shaB1 (x : Nat) : Nat := rotr 6 x ^^^ rotr 11 x ^^^ rotr 25 x

def shaRound (st : List Nat) (kw : Nat × Nat) : List Nat :=
  match st with
  | [a, b, c, d, e, f, g, h] =>
    let t1 := w32 (h + shaB1 e + shaCh e f g + kw.1 + kw.2)
    let t2 := w32 (shaB0 a + shaMaj a b c)
    [w32 (t1 + t2), a, b, c, w32 (d + t1), e, f, g]
  | other => other

def compress (hs : List Nat) (block : List Nat) : List Nat :=
  let ws := sched (words16 block) 48
  let st := (shaK.zip ws).foldl shaRound hs
  (hs.zip st).map (fun p => w32 (p.1 + p.2))

def sha256words (m : List Nat) : List Nat :=
  (blocks (padMsg m)).foldl compress shaH0

def hexDigit (n : Nat) : Char := if n < 10 then Char.ofNat (48 + n) else Char.ofNat (87 + n)

def word8hex (w : Nat) : List Char :=
  [28, 24, 20, 16, 12, 8, 4, 0].map (fun s => hexDigit ((w >>> s) % 16))

/-- UTF-8 encoding of one character, as Python's `str.encode('utf-8')`. -/
def utf8Char (c : Char) : List Nat :=
  let n := c.toNat
  if n < 128 then [n]
  else if n < 2048 then [192 + n / 64, 128 + n % 64]
  else if n < 65536 then [224 + n / 4096, 128 + (n / 64) % 64, 128 + n % 64]
  else [240 + n / 262144, 128 + (n / 4096) % 64, 128 + (n / 64) % 64, 128 + n % 64]

def strUtf8 (s : String) : List Nat := (s.data.map utf8Char).flatten

/-- `hashlib.sha256(text.encode('utf-8')).hexdigest()`. -/
def sha256hex (s : String) : String :=
  String.mk (((sha256words (strUtf8 s)).map word8hex).flatten)

/-- `CacheService._generate_question_hash`: the first 16 hex digits of the
SHA-256 of the question text. -/
def questionHash (s : String) : String := String.mk ((sha256hex s).data.take 16)

/-- JSON values as stored in the cache file: strings, arrays and
insertion-ordered objects (Python `dict`s preserve insertion order; updating
an existing key keeps its position, new keys are appended). -/
inductive J where
  | jstr (s : String)
  | jarr (xs : List J)
  | jobj (kvs : List (String × J))

/-- Key lookup in an object, i.e. Python `dict.get`. -/
def jlookup : List (String × J) → String → Option J
  | [], _ => none
  | (k, v) :: rest, key => if k = key then some v else jlookup rest key

/-- Key assignment in an object, i.e. Python `dict[key] = v`: an existing
key keeps its position, a new key is appended. -/
def jset : List (String × J) → String → J → List (String × J)
  | [], key, v => [(key, v)]
  | (k, w) :: rest, key, v =>
    if k = key then (k, v) :: rest else (k, w) :: jset rest key v

/-- Python `dict.update`: apply the bindings of `upd` to `base` in order. -/
def jupdate (base upd : List (String × J)) : List (String × J) :=
  upd.foldl (fun acc kv => jset acc kv.1 kv.2) base

/-- Result of `CacheService.get_task_page_cache`: the found value, Python
`None` (a missing path segment), or an uncaught `AttributeError` (calling
`.get` on a non-dict value). -/
inductive GetRes where
  | found (v : J)
  | missing
  | attrError

/-- `CacheService.get_task_page_cache`: walk the breadcrumb parts with
`current_level = current_level.get(part)`, returning `None` as soon as a
segment is missing.  Reaching a non-dict value with segments left raises
`AttributeError`. -/
def getTaskPageCache (c : J) : List String → GetRes
  | [] => .found c
  | p :: rest =>
    match c with
    | J.jobj kvs =>
      match jlookup kvs p with
      | none => .missing
      | some v => getTaskPageCache v rest
    | _ => .attrError

/-- The `questions_node` dict built by `save_task_page_answers` from
`answers_data` (a list of `(question_text, correct_answer)` pairs):
`questions_node[hash(question_text)] = {"answer": correct_answer}` in
order. -/
def questionsNode (answersData : List (String × String)) : List (String × J) :=
  jupdate []
    (answersData.map (fun item => (questionHash item.1, J.jobj [("answer", J.jstr item.2)])))

/-- The tail of `save_task_page_answers` once the walk reached the task
node: `current_level['type'] = strategy_type`, then
`current_level.setdefault('questions', {}).update(questions_node)`.  The
`Bool` is false when the Python code would raise: item assignment on a
non-dict (`TypeError`), or `.update` on a non-dict `questions` value
(`AttributeError`) — in the latter case `type` has already been written. -/
def saveFinish (t : String) (qnode : List (String × J)) : J → J × Bool
  | J.jobj kvs =>
    let kvs1 := jset kvs "type" (J.jstr t)
    match jlookup kvs1 "questions" with
    | some (J.jobj qs) => (J.jobj (jset kvs1 "questions" (J.jobj (jupdate qs qnode))), true)
    | some _ => (J.jobj kvs1, false)
    | none => (J.jobj (jset kvs1 "questions" (J.jobj qnode)), true)
  | other => (other, false)

/-- The breadcrumb walk of `save_task_page_answers`:
`current_level = current_level.setdefault(part, {})` for each part, then
`saveFinish`.  `setdefault` on a non-dict raises `AttributeError` (modelled
by the false flag, leaving that subtree unchanged). -/
def saveWalk (t : String) (qnode : List (String × J)) : List String → J → J × Bool
  | [], node => saveFinish t qnode node
  | p :: rest, node =>
    match node with
    | J.jobj kvs =>
      match jlookup kvs p with
      | some child =>
        let r := saveWalk t qnode rest child
        (J.jobj (jset kvs p r.1), r.2)
      | none =>
        let r := saveWalk t qnode rest (J.jobj [])
        (J.jobj (jset kvs p r.1), r.2)
    | other => (other, false)

/-- `CacheService.save_task_page_answers(breadcrumb_parts, strategy_type,
answers_data)` on in-memory cache `c`: returns the new cache and whether the
call completed without raising. -/
def saveTaskPageAnswers (c : J) (parts : List String) (t : String)
    (answersData : List (String × String)) : J × Bool :=
  saveWalk t (questionsNode answersData) parts c

/-- The SHA-256 model matches the NIST test vector for "abc". -/
lemma sha256hex_abc :
    sha256hex "abc" =
      "ba7816bf8f01cfea414140de5dae2223b00361a396177a9cb410ff61f20015ad" := by
  decide

/-- The question hash of "q1", as `hashlib` computes it. -/
lemma questionHash_q1 : questionHash "q1" = "c75de8c1b7c3ae52" := by decide

lemma jlookup_jset_self (kvs : List (String × J)) (k : String) (v : J) :
    jlookup (jset kvs k v) k = some v := by
  induction kvs with
  | nil => simp [jset, jlookup]
  | cons kv rest ih =>
    obtain ⟨k', w⟩ := kv
    by_cases h : k' = k
    · subst h; simp [jset, jlookup]
    · simp [jset, jlookup, h, ih]

lemma jlookup_jset_ne (kvs : List (String × J)) (k k' : String) (v : J)
    (h : k' ≠ k) : jlookup (jset kvs k v) k' = jlookup kvs k' := by
  induction kvs with
  | nil =>
    simp only [jset, jlookup]
    rw [if_neg (Ne.symm h)]
  | cons kv rest ih =>
    obtain ⟨k0, w⟩ := kv
    by_cases h0 : k0 = k
    · subst h0
      simp only [jset, if_pos rfl, jlookup]
      rw [if_neg (Ne.symm h), if_neg (Ne.symm h)]
    · simp only [jset, if_neg h0, jlookup]
      by_cases h1 : k0 = k'
      · simp [h1]
      · simp [h1, ih]

lemma jlookup_jupdate_or (upd base : List (String × J)) (k : String) :
    jlookup (jupdate base upd) k =
      (jlookup (jupdate [] upd) k).or (jlookup base k) := by
  induction upd generalizing base with
  | nil => simp [jupdate, jlookup]
  | cons kv upd ih =>
    obtain ⟨k0, v0⟩ := kv
    have hbase : jupdate base ((k0, v0) :: upd) = jupdate (jset base k0 v0) upd := rfl
    have hnil : jupdate [] ((k0, v0) :: upd) = jupdate (jset [] k0 v0) upd := rfl
    rw [hbase, hnil, ih (jset base k0 v0), ih (jset [] k0 v0)]
    cases hA : jlookup (jupdate [] upd) k with
    | some v => simp [Option.or]
    | none =>
      simp only [Option.or]
      by_cases hk : k0 = k
      · subst hk
        rw [jlookup_jset_self, jlookup_jset_self]
      · rw [jlookup_jset_ne _ _ _ _ (fun hh => hk hh.symm),
          jlookup_jset_ne _ _ _ _ (fun hh => hk hh.symm)]
        simp [jset, jlookup]

lemma jlookup_jupdate_nil_cons (kv : String × J) (m : List (String × J)) (k : String) :
    jlookup (jupdate [] (kv :: m)) k =
      (jlookup (jupdate [] m) k).or (if kv.1 = k then some kv.2 else none) := by
  obtain ⟨k0, v0⟩ := kv
  have h : jupdate [] ((k0, v0) :: m) = jupdate [(k0, v0)] m := rfl
  rw [h, jlookup_jupdate_or m [(k0, v0)] k]
  simp [jlookup]

def keysOf (l : List (String × J)) : List String := l.map Prod.fst

lemma mem_keys_jset (l : List (String × J)) (k x : String) (v : J) :
    x ∈ keysOf (jset l k v) → x ∈ keysOf l ∨ x = k := by
  induction l with
  | nil => simp [jset, keysOf]
  | cons kv rest ih =>
    obtain ⟨k0, w⟩ := kv
    by_cases h0 : k0 = k
    · subst h0; simp [jset, keysOf]
      tauto
    · simp only [jset, if_neg h0, keysOf, List.map_cons, List.mem_cons]
      rintro (h | h)
      · exact Or.inl (by simp [keysOf, h])
      · rcases ih h with h | h
        · exact Or.inl (by simp [keysOf] at h ⊢; tauto)
        · exact Or.inr h

lemma nodup_keys_jset (l : List (String × J)) (k : String) (v : J)
    (h : (keysOf l).Nodup) : (keysOf (jset l k v)).Nodup := by
  induction l with
  | nil => simp [jset, keysOf]
  | cons kv rest ih =>
    obtain ⟨k0, w⟩ := kv
    simp only [keysOf, List.map_cons, List.nodup_cons] at h
    by_cases h0 : k0 = k
    · subst h0
      simpa [jset, keysOf, List.nodup_cons] using h
    · simp only [jset, if_neg h0, keysOf, List.map_cons, List.nodup_cons]
      refine ⟨fun hmem => ?_, ih h.2⟩
      rcases mem_keys_jset rest k k0 v hmem with hm | hm
      · exact h.1 (by simpa [keysOf] using hm)
      · exact h0 hm

lemma nodup_keys_jupdate (upd base : List (String × J))
    (h : (keysOf base).Nodup) : (keysOf (jupdate base upd)).Nodup := by
  induction upd generalizing base with
  | nil => simpa [jupdate]
  | cons kv upd ih =>
    have hstep : jupdate base (kv :: upd) = jupdate (jset base kv.1 kv.2) upd := rfl
    rw [hstep]
    exact ih _ (nodup_keys_jset base kv.1 kv.2 h)

lemma jlookup_eq_none_of_not_mem (l : List (String × J)) (k : String)
    (h : k ∉ keysOf l) : jlookup l k = none := by
  induction l with
  | nil => rfl
  | cons kv rest ih =>
    obtain ⟨k0, w⟩ := kv
    simp only [keysOf, List.map_cons, List.mem_cons, not_or] at h
    simp only [jlookup]
    rw [if_neg (Ne.symm h.1)]
    exact ih h.2

lemma jlookup_jupdate_nil_of_nodup (l : List (String × J)) (k : String)
    (h : (keysOf l).Nodup) : jlookup (jupdate [] l) k = jlookup l k := by
  induction l with
  | nil => rfl
  | cons kv rest ih =>
    obtain ⟨k0, v0⟩ := kv
    simp only [keysOf, List.map_cons, List.nodup_cons] at h
    rw [jlookup_jupdate_nil_cons (k0, v0) rest k, ih h.2]
    by_cases hk : k0 = k
    · subst hk
      rw [jlookup_eq_none_of_not_mem rest k0 h.1]
      simp [jlookup, Option.or]
    · simp [jlookup, hk, Option.or]
      cases jlookup rest k <;> simp

lemma questionsNode_cons (kv : String × String) (rest : List (String × String))
    (k : String) :
    jlookup (questionsNode (kv :: rest)) k =
      (jlookup (questionsNode rest) k).or
        (if questionHash kv.1 = k then some (J.jobj [("answer", J.jstr kv.2)])
          else none) := by
  unfold questionsNode
  rw [List.map_cons,
    jlookup_jupdate_nil_cons (questionHash kv.1, J.jobj [("answer", J.jstr kv.2)]) _ k]

lemma questionsNode_lookup_inv (a : List (String × String)) (h : String) (v : J)
    (hl : jlookup (questionsNode a) h = some v) :
    ∃ q2 ans2, (q2, ans2) ∈ a ∧ questionHash q2 = h ∧
      v = J.jobj [("answer", J.jstr ans2)] := by
  induction a with
  | nil => simp [questionsNode, jupdate, jlookup] at hl
  | cons kv rest ih =>
    rw [questionsNode_cons kv rest h] at hl
    cases hr : jlookup (questionsNode rest) h with
    | some w =>
      rw [hr] at hl
      simp only [Option.or] at hl
      obtain ⟨q2, ans2, hmem, hh, hv⟩ := ih (by rw [hr, hl])
      exact ⟨q2, ans2, by simp [hmem], hh, hv⟩
    | none =>
      rw [hr] at hl
      simp only [Option.or] at hl
      by_cases hq : questionHash kv.1 = h
      · rw [if_pos hq] at hl
        exact ⟨kv.1, kv.2, by simp, hq, by injection hl with hh; exact hh.symm⟩
      · rw [if_neg hq] at hl
        exact absurd hl (by simp)

lemma questionsNode_lookup_mem (a : List (String × String)) (q : String)
    (ans : String) (hmem : (q, ans) ∈ a) :
    ∃ v, jlookup (questionsNode a) (questionHash q) = some v := by
  induction a with
  | nil => simp at hmem
  | cons kv rest ih =>
    rw [questionsNode_cons kv rest (questionHash q)]
    cases hr : jlookup (questionsNode rest) (questionHash q) with
    | some w => exact ⟨w, by simp [Option.or]⟩
    | none =>
      rcases List.mem_cons.mp hmem with hkv | hrest
      · refine ⟨J.jobj [("answer", J.jstr kv.2)], ?_⟩
        have : questionHash kv.1 = questionHash q := by rw [← hkv]
        simp [Option.or, this]
      · obtain ⟨v, hv⟩ := ih hrest
        rw [hr] at hv
        exact absurd hv (by simp)

lemma questionsNode_lookup (a : List (String × String)) (q ans : String)
    (hmem : (q, ans) ∈ a)
    (hcoh : ∀ q2 ans2, (q2, ans2) ∈ a → questionHash q2 = questionHash q → ans2 = ans) :
    jlookup (questionsNode a) (questionHash q) =
      some (J.jobj [("answer", J.jstr ans)]) := by
  obtain ⟨v, hv⟩ := questionsNode_lookup_mem a q ans hmem
  obtain ⟨q2, ans2, hmem2, hh2, hv2⟩ := questionsNode_lookup_inv a _ v hv
  have : ans2 = ans := hcoh q2 ans2 hmem2 hh2
  rw [hv, hv2, this]

lemma nodup_keys_questionsNode (a : List (String × String)) :
    (keysOf (questionsNode a)).Nodup := by
  unfold questionsNode
  exact nodup_keys_jupdate _ [] (by simp [keysOf])

lemma saveFinish_found (t : String) (qnode : List (String × J)) (old : J)
    (hq : (keysOf qnode).Nodup) (hok : (saveFinish t qnode old).2 = true) :
    ∃ kvs, (saveFinish t qnode old).1 = J.jobj kvs ∧
      jlookup kvs "type" = some (J.jstr t) ∧
      ∃ qs, jlookup kvs "questions" = some (J.jobj qs) ∧
        ∀ h w, jlookup qnode h = some w → jlookup qs h = some w := by
  cases old with
  | jstr s => simp [saveFinish] at hok
  | jarr xs => simp [saveFinish] at hok
  | jobj kvs0 =>
    simp only [saveFinish]
    cases hq0 : jlookup (jset kvs0 "type" (J.jstr t)) "questions" with
    | none =>
      simp only [saveFinish, hq0] at hok ⊢
      refine ⟨_, rfl, ?_, qnode, jlookup_jset_self _ _ _, fun h w hw => hw⟩
      rw [jlookup_jset_ne _ _ _ _ (by decide), jlookup_jset_self]
    | some v =>
      cases v with
      | jobj qsOld =>
        simp only [saveFinish, hq0] at hok ⊢
        refine ⟨_, rfl, ?_, jupdate qsOld qnode, jlookup_jset_self _ _ _, ?_⟩
        · rw [jlookup_jset_ne _ _ _ _ (by decide), jlookup_jset_self]
        · intro h w hw
          rw [jlookup_jupdate_or qnode qsOld h,
            jlookup_jupdate_nil_of_nodup qnode h hq, hw]
          simp [Option.or]
      | jstr s => simp [saveFinish, hq0] at hok
      | jarr xs => simp [saveFinish, hq0] at hok

lemma saveWalk_get (t : String) (qnode : List (String × J)) (parts : List String)
    (c : J) (hok : (saveWalk t qnode parts c).2 = true) :
    ∃ old, (saveFinish t qnode old).2 = true ∧
      getTaskPageCache (saveWalk t qnode parts c).1 parts =
        GetRes.found (saveFinish t qnode old).1 := by
  induction parts generalizing c with
  | nil => exact ⟨c, hok, rfl⟩
  | cons p rest ih =>
    cases c with
    | jstr s => simp [saveWalk] at hok
    | jarr xs => simp [saveWalk] at hok
    | jobj kvs =>
      cases hc : jlookup kvs p with
      | some child =>
        simp only [saveWalk, hc] at hok ⊢
        obtain ⟨old, hold, hget⟩ := ih child hok
        refine ⟨old, hold, ?_⟩
        simp only [getTaskPageCache, jlookup_jset_self, hget]
      | none =>
        simp only [saveWalk, hc] at hok ⊢
        obtain ⟨old, hold, hget⟩ := ih (J.jobj []) hok
        refine ⟨old, hold, ?_⟩
        simp only [getTaskPageCache, jlookup_jset_self, hget]

/-- C2 counterexample.  `save(["Unit1"], "single_choice", [("q1", "B")])` on
the empty cache followed by `get(["Unit1"])` returns the stored entry, but
the entry carries no `answers` list at all: the answers are stored under
`questions`, keyed by the 16-hex-character SHA-256 question hash
(`c75de8c1b7c3ae52` for `"q1"`), so the claimed `answers == a` round-trip
fails. -/
theorem save_get_roundtrip_counterexample :
    (saveTaskPageAnswers (J.jobj []) ["Unit1"] "single_choice" [("q1", "B")]).2 = true ∧
    getTaskPageCache
        (saveTaskPageAnswers (J.jobj []) ["Unit1"] "single_choice" [("q1", "B")]).1
        ["Unit1"] =
      GetRes.found (J.jobj [("type", J.jstr "single_choice"),
        ("questions", J.jobj [("c75de8c1b7c3ae52", J.jobj [("answer", J.jstr "B")])])]) ∧
    jlookup [("type", J.jstr "single_choice"),
        ("questions", J.jobj [("c75de8c1b7c3ae52", J.jobj [("answer", J.jstr "B")])])]
      "answers" = none ∧
    (none : Option J) ≠ some (J.jarr [J.jstr "B"]) := by
  refine ⟨rfl, rfl, rfl, by simp⟩

/-- C2 amended.  A successful `save(k, t, a)` followed by `get(k)` finds an
entry object whose `type` field is `t` and whose `questions` object maps, for
every pair `(q, ans)` in `a` whose question hash determines its answer
uniquely within `a` (in particular always, when the 16-hex-char question
hashes of `a` are collision-free), the hash of `q` to `{"answer": ans}`.
There is no `answers` list; the saved answers are recovered per question
hash, not as an ordered list. -/
theorem save_get_questions_roundtrip (c : J) (parts : List String) (t : String)
    (a : List (String × String))
    (hok : (saveTaskPageAnswers c parts t a).2 = true) :
    ∃ kvs, getTaskPageCache (saveTaskPageAnswers c parts t a).1 parts =
        GetRes.found (J.jobj kvs) ∧
      jlookup kvs "type" = some (J.jstr t) ∧
      ∃ qs, jlookup kvs "questions" = some (J.jobj qs) ∧
        ∀ q ans, (q, ans) ∈ a →
          (∀ q2 ans2, (q2, ans2) ∈ a → questionHash q2 = questionHash q → ans2 = ans) →
          jlookup qs (questionHash q) = some (J.jobj [("answer", J.jstr ans)]) := by
  unfold saveTaskPageAnswers at hok ⊢
  obtain ⟨old, hold, hget⟩ := saveWalk_get t (questionsNode a) parts c hok
  obtain ⟨kvs, hkvs, htype, qs, hqs, hpt⟩ :=
    saveFinish_found t (questionsNode a) old (nodup_keys_questionsNode a) hold
  refine ⟨kvs, ?_, htype, qs, hqs, ?_⟩
  · rw [hget, hkvs]
  · intro q ans hmem hcoh
    exact hpt _ _ (questionsNode_lookup a q ans hmem hcoh)

/-- Witness for `save_get_questions_roundtrip` at a concrete save of two
questions on the empty cache. -/
theorem save_get_questions_roundtrip_witness :
    ∃ kvs, getTaskPageCache
        (saveTaskPageAnswers (J.jobj []) ["CourseA", "Unit1"] "single_choice"
          [("q1", "B"), ("q2", "C")]).1 ["CourseA", "Unit1"] =
        GetRes.found (J.jobj kvs) ∧
      jlookup kvs "type" = some (J.jstr "single_choice") ∧
      ∃ qs, jlookup kvs "questions" = some (J.jobj qs) ∧
        ∀ q ans, (q, ans) ∈ [("q1", "B"), ("q2", "C")] →
          (∀ q2 ans2, (q2, ans2) ∈ [("q1", "B"), ("q2", "C")] →
            questionHash q2 = questionHash q → ans2 = ans) →
          jlookup qs (questionHash q) = some (J.jobj [("answer", J.jstr ans)]) :=
  save_get_questions_roundtrip (J.jobj []) ["CourseA", "Unit1"] "single_choice"
    [("q1", "B"), ("q2", "C")] rfl

lemma saveWalk_fresh_missing (t : String) (qnode : List (String × J))
    (mid : List String) (x y : String) (hxy : x ≠ y) (s1 s2 : List String) :
    getTaskPageCache (saveWalk t qnode (mid ++ y :: s2) (J.jobj [])).1
      (mid ++ x :: s1) = GetRes.missing := by
  induction mid with
  | nil =>
    simp only [List.nil_append, saveWalk, jlookup, jset, getTaskPageCache]
    rw [if_neg (Ne.symm hxy)]
  | cons m mid ih =>
    simp only [List.cons_append, saveWalk, jlookup, jset, getTaskPageCache,
      List.append_eq]
    simpa using ih

/-- C7 counterexample.  The claim quantifies over all distinct Task Location
Keys, but a key that extends another through the stored entry collides with
it: after `save(["u"], "t1", [])`, saving under `["u", "questions", "x"]`
creates the `"x"` subtree inside the first entry's own `questions` object,
so `get(["u"])` no longer returns the entry that was saved under `["u"]`. -/
theorem save_noninterference_counterexample :
    getTaskPageCache (saveTaskPageAnswers (J.jobj []) ["u"] "t1" []).1 ["u"] =
      GetRes.found (J.jobj [("type", J.jstr "t1"), ("questions", J.jobj [])]) ∧
    getTaskPageCache
        (saveTaskPageAnswers (saveTaskPageAnswers (J.jobj []) ["u"] "t1" []).1
          ["u", "questions", "x"] "t2" []).1 ["u"] =
      GetRes.found (J.jobj [("type", J.jstr "t1"),
        ("questions", J.jobj [("x", J.jobj [("type", J.jstr "t2"),
          ("questions", J.jobj [])])])]) ∧
    J.jobj [("type", J.jstr "t1"), ("questions", J.jobj [])] ≠
      J.jobj [("type", J.jstr "t1"),
        ("questions", J.jobj [("x", J.jobj [("type", J.jstr "t2"),
          ("questions", J.jobj [])])])] := by
  refine ⟨rfl, rfl, by simp⟩

/-- C7 amended.  Saving under a key `k2` never modifies what `get` returns
for a key `k1` when the two keys *diverge*: they share a common prefix `pre`
and then differ at that position (`x ≠ y`).  (Keys where one extends the
other through an entry's own fields can interfere, as the counterexample
shows; diverging keys — in particular distinct keys of equal length, the
shape breadcrumbs take — never collide.) -/
theorem save_noninterference (c : J) (pre : List String) (x y : String)
    (hxy : x ≠ y) (s1 s2 : List String) (t : String)
    (a : List (String × String)) :
    getTaskPageCache (saveTaskPageAnswers c (pre ++ y :: s2) t a).1
        (pre ++ x :: s1) =
      getTaskPageCache c (pre ++ x :: s1) := by
  unfold saveTaskPageAnswers
  induction pre generalizing c with
  | nil =>
    cases c with
    | jstr s => rfl
    | jarr xs => rfl
    | jobj kvs =>
      cases hc : jlookup kvs y with
      | some child =>
        simp only [List.nil_append, saveWalk, hc, getTaskPageCache]
        rw [jlookup_jset_ne kvs y x _ hxy]
      | none =>
        simp only [List.nil_append, saveWalk, hc, getTaskPageCache]
        rw [jlookup_jset_ne kvs y x _ hxy]
  | cons m pre ih =>
    cases c with
    | jstr s => rfl
    | jarr xs => rfl
    | jobj kvs =>
      cases hc : jlookup kvs m with
      | some child =>
        simp only [List.cons_append, saveWalk, hc, getTaskPageCache]
        rw [jlookup_jset_self]
        exact ih child
      | none =>
        simp only [List.cons_append, saveWalk, hc, getTaskPageCache]
        rw [jlookup_jset_self]
        exact saveWalk_fresh_missing t (questionsNode a) pre x y hxy s1 s2

/-- Witness for `save_noninterference`: saving under
`["CourseA", "Unit2", "3"]` leaves the entry under `["CourseA", "Unit1", "3"]`
untouched. -/
theorem save_noninterference_witness :
    getTaskPageCache
        (saveTaskPageAnswers
          (saveTaskPageAnswers (J.jobj []) ["CourseA", "Unit1", "3"]
            "single_choice" [("q1", "B")]).1
          ["CourseA", "Unit2", "3"] "single_choice" [("q2", "C")]).1
        ["CourseA", "Unit1", "3"] =
      getTaskPageCache
        (saveTaskPageAnswers (J.jobj []) ["CourseA", "Unit1", "3"]
          "single_choice" [("q1", "B")]).1
        ["CourseA", "Unit1", "3"] :=
  save_noninterference _ ["CourseA"] "Unit1" "Unit2" (by decide) ["3"] ["3"]
    "single_choice" [("q2", "C")]

def J.isObj : J → Bool
  | .jobj _ => true
  | _ => false

/-- C8 counterexample.  `get_task_page_cache` is not total: after
`save(["u"], "t1", [])` the key `["u", "type", "z"]` extends through the
entry's stored `type` string, and the walk calls `.get` on that string,
raising `AttributeError` instead of returning `None`. -/
theorem get_total_counterexample :
    getTaskPageCache (saveTaskPageAnswers (J.jobj []) ["u"] "t1" []).1
      ["u", "type"] = GetRes.found (J.jstr "t1") ∧
    getTaskPageCache (saveTaskPageAnswers (J.jobj []) ["u"] "t1" []).1
      ["u", "type", "z"] = GetRes.attrError ∧
    GetRes.attrError ≠ GetRes.missing := by
  refine ⟨rfl, rfl, by simp⟩

lemma getTaskPageCache_append_found (c : J) (u v : List String) (w : J)
    (hu : getTaskPageCache c u = GetRes.found w) :
    getTaskPageCache c (u ++ v) = getTaskPageCache w v := by
  induction u generalizing c with
  | nil =>
    simp only [getTaskPageCache] at hu
    injection hu with hh
    rw [hh]
    rfl
  | cons p u ih =>
    cases c with
    | jstr s => simp [getTaskPageCache] at hu
    | jarr xs => simp [getTaskPageCache] at hu
    | jobj kvs =>
      cases hc : jlookup kvs p with
      | none => simp [getTaskPageCache, hc] at hu
      | some child =>
        simp only [getTaskPageCache, hc] at hu
        simpa only [List.cons_append, getTaskPageCache, hc] using ih child hu

lemma getTaskPageCache_error_split (c : J) (parts : List String)
    (herr : getTaskPageCache c parts = GetRes.attrError) :
    ∃ u v w, parts = u ++ v ∧ v ≠ [] ∧
      getTaskPageCache c u = GetRes.found w ∧ w.isObj = false := by
  induction parts generalizing c with
  | nil => simp [getTaskPageCache] at herr
  | cons p rest ih =>
    cases c with
    | jstr s =>
      exact ⟨[], p :: rest, J.jstr s, rfl, by simp, rfl, rfl⟩
    | jarr xs =>
      exact ⟨[], p :: rest, J.jarr xs, rfl, by simp, rfl, rfl⟩
    | jobj kvs =>
      cases hc : jlookup kvs p with
      | none => simp [getTaskPageCache, hc] at herr
      | some child =>
        simp only [getTaskPageCache, hc] at herr
        obtain ⟨u, v, w, hp, hv, hg, hw⟩ := ih child herr
        refine ⟨p :: u, v, w, by simp [hp], hv, ?_, hw⟩
        simpa only [getTaskPageCache, hc] using hg

/-- C8 amended.  `get_task_page_cache` returns the stored value when every
path segment resolves through nested dict nodes, and returns `None` exactly
when a segment is missing from a dict node reached by the walk; but it is
not total: it raises `AttributeError` precisely on keys that extend, by at
least one segment, a path whose value is a stored non-dict leaf (such as an
entry's `type` string).  The four conjuncts: extending a found leaf raises;
every raise arises that way; a missing segment after a found dict returns
`None`; a present segment after a found dict returns the stored value. -/
theorem get_lookup_characterization :
    (∀ (c : J) (u v : List String) (w : J), getTaskPageCache c u = GetRes.found w →
      w.isObj = false → v ≠ [] → getTaskPageCache c (u ++ v) = GetRes.attrError) ∧
    (∀ (c : J) (parts : List String), getTaskPageCache c parts = GetRes.attrError →
      ∃ u v w, parts = u ++ v ∧ v ≠ [] ∧
        getTaskPageCache c u = GetRes.found w ∧ w.isObj = false) ∧
    (∀ (c : J) (u : List String) (kvs : List (String × J)) (p : String)
        (rest : List String),
      getTaskPageCache c u = GetRes.found (J.jobj kvs) → jlookup kvs p = none →
      getTaskPageCache c (u ++ p :: rest) = GetRes.missing) ∧
    (∀ (c : J) (u : List String) (kvs : List (String × J)) (p : String) (w : J),
      getTaskPageCache c u = GetRes.found (J.jobj kvs) → jlookup kvs p = some w →
      getTaskPageCache c (u ++ [p]) = GetRes.found w) := by
  refine ⟨?_, ?_, ?_, ?_⟩
  · intro c u v w hu hw hv
    rw [getTaskPageCache_append_found c u v w hu]
    cases v with
    | nil => exact absurd rfl hv
    | cons q vs =>
      cases w with
      | jstr s => rfl
      | jarr xs => rfl
      | jobj kvs => simp [J.isObj] at hw
  · exact getTaskPageCache_error_split
  · intro c u kvs p rest hu hp
    rw [getTaskPageCache_append_found c u _ _ hu]
    simp [getTaskPageCache, hp]
  · intro c u kvs p w hu hp
    rw [getTaskPageCache_append_found c u _ _ hu]
    simp [getTaskPageCache, hp]

/-- Witness for `get_lookup_characterization`: on the cache produced by
`save(["u"], "t1", [])`, extending the found leaf `["u", "type"]` by one
segment raises, and the missing segment `"z"` under the found entry object
returns `None`. -/
theorem get_lookup_characterization_witness :
    getTaskPageCache (saveTaskPageAnswers (J.jobj []) ["u"] "t1" []).1
      (["u", "type"] ++ ["z"]) = GetRes.attrError ∧
    getTaskPageCache (saveTaskPageAnswers (J.jobj []) ["u"] "t1" []).1
      (["u"] ++ "z" :: []) = GetRes.missing :=
  ⟨get_lookup_characterization.1 _ ["u", "type"] ["z"] (J.jstr "t1") rfl rfl
      (by simp),
    get_lookup_characterization.2.2.1 _ ["u"]
      [("type", J.jstr "t1"), ("questions", J.jobj [])] "z" [] rfl rfl⟩

/-! ## Part 4: the single-choice cache-first decision

`SingleChoiceStrategy.execute` checks the cache only when not in chained
mode: `if not config.FORCE_AI and task_page_cache and
task_page_cache.get('type') == self.strategy_type:` then reads
`cached_answers = task_page_cache.get('answers', [])` and uses them only
when `len(cached_answers) == len(original_question_locators)`; otherwise it
falls through to the AI path.  We model the decision as a function of the
`FORCE_AI` flag, the chained flag, the value `get_task_page_cache` returned
(`none` = Python `None`), and the detected question-slot count; the result
is `ok (some answers)` for the cache-fill path, `ok none` for the AI path,
and `error` when the Python would raise (`.get` on a non-dict hit). -/

/-- Python truthiness of a JSON value (empty strings/lists/dicts are
falsy). -/
def pyTruthy : J → Bool
  | .jstr s => !s.isEmpty
  | .jarr xs => !xs.isEmpty
  | .jobj kvs => !kvs.isEmpty

/-- Python `len` of a JSON value. -/
def pyLen : J → Nat
  | .jstr s => s.length
  | .jarr xs => xs.length
  | .jobj kvs => kvs.length

/-- Python `==` between a `dict.get` result and a Python string: true only
for an equal stored string. -/
def pyEqStr (v : Option J) (s : String) : Bool :=
  match v with
  | some (J.jstr s2) => s2 == s
  | _ => false

/-- The cache-use decision of `SingleChoiceStrategy.execute` (lines 56–83 of
`single_choice.py`). -/
def scCacheDecision (forceAI isChained : Bool) (tpc : Option J) (slots : Nat) :
    Except Unit (Option J) :=
  if isChained then .ok none
  else
    match tpc with
    | none => .ok none
    | some e =>
      if forceAI then .ok none
      else if !(pyTruthy e) then .ok none
      else
        match e with
        | J.jobj kvs =>
          if pyEqStr (jlookup kvs "type") "single_choice" then
            if pyLen ((jlookup kvs "answers").getD (J.jarr [])) = slots then
              .ok (some ((jlookup kvs "answers").getD (J.jarr [])))
            else .ok none
          else .ok none
        | _ => .error ()

/-- C6.  On a non-chained single-choice page with a cache hit (an entry
object), the solver fills from the cached answers only if their length
equals the detected slot count — whenever the decision is the cache-fill
path, the filled answers are the entry's `answers` value and their length
equals `slots` — and on a length mismatch the decision is the AI path. -/
theorem single_choice_cache_guard (forceAI : Bool) (kvs : List (String × J))
    (slots : Nat) :
    (∀ ca, scCacheDecision forceAI false (some (J.jobj kvs)) slots =
        Except.ok (some ca) →
      ca = (jlookup kvs "answers").getD (J.jarr []) ∧ pyLen ca = slots) ∧
    (pyLen ((jlookup kvs "answers").getD (J.jarr [])) ≠ slots →
      scCacheDecision forceAI false (some (J.jobj kvs)) slots = Except.ok none) := by
  constructor
  · intro ca hca
    cases hf : forceAI with
    | true => simp [scCacheDecision, hf] at hca
    | false =>
      cases ht : pyTruthy (J.jobj kvs) with
      | false => simp [scCacheDecision, hf, ht] at hca
      | true =>
        cases he : pyEqStr (jlookup kvs "type") "single_choice" with
        | false => simp [scCacheDecision, hf, ht, he] at hca
        | true =>
          by_cases hl : pyLen ((jlookup kvs "answers").getD (J.jarr [])) = slots
          · simp only [scCacheDecision, hf, ht, he, hl, Bool.not_true,
              Bool.false_eq_true, if_false, if_true, if_pos rfl,
              Except.ok.injEq, Option.some.injEq] at hca
            exact ⟨hca.symm, by rw [← hca]; exact hl⟩
          · simp [scCacheDecision, hf, ht, he, hl] at hca
  · intro hl
    cases hf : forceAI with
    | true => simp [scCacheDecision, hf]
    | false =>
      cases ht : pyTruthy (J.jobj kvs) with
      | false => simp [scCacheDecision, hf, ht]
      | true =>
        cases he : pyEqStr (jlookup kvs "type") "single_choice" with
        | false => simp [scCacheDecision, hf, ht, he]
        | true => simp [scCacheDecision, hf, ht, he, hl]

/-- Witness for `single_choice_cache_guard`: a matching entry of one cached
answer is used when the page has one slot, and the same entry is rejected
(AI path) when the page has two slots. -/
theorem single_choice_cache_guard_witness :
    ((J.jarr [J.jstr "B"]) =
        (jlookup [("type", J.jstr "single_choice"),
          ("answers", J.jarr [J.jstr "B"])] "answers").getD (J.jarr []) ∧
      pyLen (J.jarr [J.jstr "B"]) = 1) ∧
    scCacheDecision false false
        (some (J.jobj [("type", J.jstr "single_choice"),
          ("answers", J.jarr [J.jstr "B"])])) 2 = Except.ok none :=
  ⟨(single_choice_cache_guard false
      [("type", J.jstr "single_choice"), ("answers", J.jarr [J.jstr "B"])] 1).1
      (J.jarr [J.jstr "B"]) rfl,
    (single_choice_cache_guard false
      [("type", J.jstr "single_choice"), ("answers", J.jarr [J.jstr "B"])] 2).2
      (by decide)⟩

/-! ## Part 5: the chained-task ("题中题") loop

`run_strategy_on_current_page` (main.py), on a "next"-affordance page, loops:
dispatch a strategy on the current sub-task (or extract shared material when
none matches); a failed or raising `execute` breaks the loop at once; then
the action button text is re-read and classified by Python substring tests
in this order: contains 下一题/下一页 → click next, `sub_task_index += 1`,
continue; contains 提 交/提交 → submit and break; anything else → log the
unknown text and break without submitting.  We model one iteration's inputs
as a `ChainStep` and the loop as a function from the step script to
(number of sub-task dispatch rounds executed, final sub-task index, whether
the final submission was performed). -/

def pfxOf : List Char → List Char → Bool
  | [], _ => true
  | _ :: _, [] => false
  | a :: as, b :: bs => a == b && pfxOf as bs

def hasSub (needle : List Char) : List Char → Bool
  | [] => needle.isEmpty
  | b :: bs => pfxOf needle (b :: bs) || hasSub needle bs

/-- Python's `needle in hay` substring test. -/
def strHas (hay needle : String) : Bool := hasSub needle.data hay.data

inductive Aff where
  | next
  | submit
  | unknown
deriving DecidableEq, Repr

/-- Classification of the action-button text, in the source's test order. -/
def affordance (t : String) : Aff :=
  if strHas t "下一题" || strHas t "下一页" then .next
  else if strHas t "提 交" || strHas t "提交" then .submit
  else .unknown

/-- Outcome of the dispatch-and-execute part of one loop iteration:
a strategy matched and its `execute` returned with the given success flag,
a strategy matched but `execute` raised, or no strategy matched (shared
material extraction). -/
inductive SubResult where
  | matched (succeeded : Bool)
  | raised
  | noMatch
deriving DecidableEq, Repr

structure ChainStep where
  sub : SubResult
  btnText : String
deriving DecidableEq, Repr

/-- The chained-task loop over a script of per-iteration inputs, from
sub-task index `idx`: returns (iterations executed — each being one
sub-task dispatch round —, final sub-task index, whether the final submit
was clicked). -/
def chainLoop (idx : Nat) : List ChainStep → Nat × Nat × Bool
  | [] => (0, idx, false)
  | step :: rest =>
    match step.sub with
    | .matched false => (1, idx, false)
    | .raised => (1, idx, false)
    | .matched true =>
      match affordance step.btnText with
      | .next =>
        let r := chainLoop (idx + 1) rest
        (r.1 + 1, r.2.1, r.2.2)
      | .submit => (1, idx, true)
      | .unknown => (1, idx, false)
    | .noMatch =>
      match affordance step.btnText with
      | .next =>
        let r := chainLoop (idx + 1) rest
        (r.1 + 1, r.2.1, r.2.2)
      | .submit => (1, idx, true)
      | .unknown => (1, idx, false)

/-- C9.  If, after a sub-task that did not itself break the loop, the action
affordance text is neither a "next" nor a "submit" affordance, the loop
terminates at that iteration: no further sub-task is dispatched (the
iteration count ignores the remaining script `rest`), nothing is submitted,
and the sub-task index is not advanced past the preceding "next" steps. -/
theorem chain_unknown_affordance_stops (idx : Nat) (pre : List ChainStep)
    (s : ChainStep) (rest : List ChainStep)
    (hpre : ∀ st ∈ pre,
      (st.sub = SubResult.matched true ∨ st.sub = SubResult.noMatch) ∧
        affordance st.btnText = Aff.next)
    (hs : s.sub = SubResult.matched true ∨ s.sub = SubResult.noMatch)
    (haff : affordance s.btnText = Aff.unknown) :
    chainLoop idx (pre ++ s :: rest) = (pre.length + 1, idx + pre.length, false) := by
  induction pre generalizing idx with
  | nil =>
    rcases hs with hs | hs <;>
      simp [chainLoop, hs, haff]
  | cons st pre ih =>
    obtain ⟨hsub, hnext⟩ := hpre st (by simp)
    have hrest : ∀ u ∈ pre,
        (u.sub = SubResult.matched true ∨ u.sub = SubResult.noMatch) ∧
          affordance u.btnText = Aff.next :=
      fun u hu => hpre u (by simp [hu])
    rcases hsub with hsub | hsub <;>
    · simp only [List.cons_append, chainLoop, List.append_eq, hsub, hnext,
        ih (idx + 1) hrest, List.length_cons, Prod.mk.injEq]
      refine ⟨?_, ?_, ?_⟩ <;> first | trivial | omega

/-- Witness for `chain_unknown_affordance_stops`: one successful sub-task
followed by "下一题", then a no-match sub-task whose re-read button text
"返回" is unrecognized; a further scripted sub-task is never dispatched. -/
theorem chain_unknown_affordance_stops_witness :
    chainLoop 0
      [⟨SubResult.matched true, "下一题"⟩, ⟨SubResult.noMatch, "返回"⟩,
        ⟨SubResult.matched true, "提 交"⟩] = (2, 1, false) := by
  have h := chain_unknown_affordance_stops 0
    [⟨SubResult.matched true, "下一题"⟩] ⟨SubResult.noMatch, "返回"⟩
    [⟨SubResult.matched true, "提 交"⟩]
    (by intro st hst
        simp only [List.mem_singleton] at hst
        subst hst
        exact ⟨Or.inl rfl, by decide⟩)
    (Or.inr rfl) (by decide)
  simpa using h

/-! ## Part 6: answer pre-validation in `_fill_and_submit`

`SingleChoiceStrategy._fill_and_submit` first checks
`len(answers) == len(option_wraps_locators)`, then runs a pure validation
loop computing `answer_index = ord(answer_char) - ord('A')` against each
group's option count, returning `False` with no clicks on the first invalid
answer; only after the whole validation loop passes does the click loop
start.  We model a question group by its option count and the click phase by
the list of `(group index, option index)` clicks it issues. -/

/-- `ord(answer_char) - ord('A')`. -/
def answerIdx (c : Char) : Int := (c.toNat : Int) - 65

/-- The per-answer validation test `0 <= answer_index < options_count`. -/
def validOne (c : Char) (n : Nat) : Bool :=
  decide (0 ≤ answerIdx c) && decide (answerIdx c < (n : Int))

/-- The pre-validation loop: stops at the first invalid answer. -/
def validateLoop : List (Char × Nat) → Bool
  | [] => true
  | (c, n) :: rest => if validOne c n then validateLoop rest else false

/-- The click loop: group `i` gets a click on option `answer_index`. -/
def clicksFrom (i : Nat) : List (Char × Nat) → List (Nat × Nat)
  | [] => []
  | (c, _) :: rest => (i, (answerIdx c).toNat) :: clicksFrom (i + 1) rest

/-- `_fill_and_submit`'s validate-then-click phase over the answers list and
the option counts of the page's option groups: the clicks issued and
whether validation passed (on `false` the Python returns `False` before any
click). -/
def fillAndSubmitClicks (answers : List Char) (counts : List Nat) :
    List (Nat × Nat) × Bool :=
  if answers.length ≠ counts.length then ([], false)
  else if validateLoop (answers.zip counts) then
    (clicksFrom 0 (answers.zip counts), true)
  else ([], false)

lemma validateLoop_false_of_mem (l : List (Char × Nat)) (c : Char) (n : Nat)
    (hmem : (c, n) ∈ l) (hv : validOne c n = false) :
    validateLoop l = false := by
  induction l with
  | nil => simp at hmem
  | cons p rest ih =>
    rcases List.mem_cons.mp hmem with hp | hp
    · obtain ⟨c0, n0⟩ := p
      injection hp.symm with h1 h2
      subst h1; subst h2
      simp [validateLoop, hv]
    · obtain ⟨c0, n0⟩ := p
      by_cases h0 : validOne c0 n0
      · simp [validateLoop, h0, ih hp]
      · simp [validateLoop, h0]

/-- C10.  The injection is atomic: when the answers list length differs from
the number of option groups, or any answer's `ord(letter) - ord('A')` index
falls outside its group's option range, `_fill_and_submit` issues no click
at all and returns `False`; and clicks are issued only when the length check
and the whole validation loop passed, in which case every answer is
clicked. -/
theorem fill_and_submit_atomic (answers : List Char) (counts : List Nat) :
    (answers.length ≠ counts.length →
      fillAndSubmitClicks answers counts = ([], false)) ∧
    (∀ c n, (c, n) ∈ answers.zip counts → validOne c n = false →
      fillAndSubmitClicks answers counts = ([], false)) ∧
    ((fillAndSubmitClicks answers counts).1 ≠ [] →
      answers.length = counts.length ∧
        validateLoop (answers.zip counts) = true ∧
        fillAndSubmitClicks answers counts =
          (clicksFrom 0 (answers.zip counts), true)) := by
  refine ⟨?_, ?_, ?_⟩
  · intro h
    simp [fillAndSubmitClicks, h]
  · intro c n hmem hv
    have hfalse := validateLoop_false_of_mem _ c n hmem hv
    by_cases h : answers.length = counts.length
    · simp [fillAndSubmitClicks, h, hfalse]
    · simp [fillAndSubmitClicks, h]
  · intro h
    by_cases hlen : answers.length = counts.length
    · by_cases hval : validateLoop (answers.zip counts)
      · exact ⟨hlen, hval, by simp [fillAndSubmitClicks, hlen, hval]⟩
      · simp [fillAndSubmitClicks, hlen, hval] at h
    · simp [fillAndSubmitClicks, hlen] at h

/-- Witness for `fill_and_submit_atomic`: answers `['A', 'E']` against
option counts `[2, 3]` (the `'E'` index 4 is out of range for 3 options)
produce no click and `False`; and a length mismatch `['A']` against `[2, 2]`
also produces no click. -/
theorem fill_and_submit_atomic_witness :
    fillAndSubmitClicks ['A', 'E'] [2, 3] = ([], false) ∧
    fillAndSubmitClicks ['A'] [2, 2] = ([], false) :=
  ⟨(fill_and_submit_atomic ['A', 'E'] [2, 3]).2.1 'E' 3 (by decide) (by decide),
    (fill_and_submit_atomic ['A'] [2, 2]).1 (by decide)⟩
